import Mathlib

/-!
Verification of the GRNVS transfer-protocol client
(`src/Transfer_Protocol/assignment4.py`).

Bytes are modelled as natural numbers (the values 0..255 that Python's
`bytes` holds) and byte strings as `List Nat`.  The pure protocol logic of
the source — the netstring codec inlined in `receive_message_queue.inner`,
the per-channel residual buffers, the tag dispatch, `string_to_int`,
`string_to_netstring`, the step-10 token validation of
`build_data_channel`, the phase-C confirmation fragment of `run`, and
`send_error` — is embedded as executable functions below.  Socket reads are
modelled by the byte sequence they deliver; `sys.exit`, raised exceptions
and printed diagnostics are modelled as explicit outcome values.
-/

/-- The bytes of an ASCII string literal, used to write byte-string
constants the way the source writes them. -/
def strBytes (s : String) : List Nat :=
  s.toList.map fun c => c.toNat

/-- ASCII whitespace stripped by Python's `int()` conversion
(`b' \t\n\r\x0b\x0c'`). -/
def isPyWs (b : Nat) : Bool :=
  b = 9 || b = 10 || b = 11 || b = 12 || b = 13 || b = 32

/-- Strip leading and trailing ASCII whitespace, as `int()` does before
parsing its argument. -/
def pyStrip (l : List Nat) : List Nat :=
  ((l.dropWhile isPyWs).reverse.dropWhile isPyWs).reverse

/-- The numeric value of an ASCII decimal digit byte, `none` otherwise. -/
def digitVal (b : Nat) : Option Nat :=
  if 48 ≤ b ∧ b ≤ 57 then some (b - 48) else none

/-- Digit-group parser of Python's `int()`: after the first digit, digits
may be separated by single underscores (`int('1_0') = 10`, while `'1__0'`,
`'_10'` and `'10_'` are rejected).  The flag records that the previous
byte was an underscore, which must be followed by a digit. -/
def pyDigitsGo : List Nat → Nat → Bool → Option Nat
  | [], acc, flag => if flag then none else some acc
  | b :: rest, acc, flag =>
    if b = 95 then
      if flag then none else pyDigitsGo rest acc true
    else
      match digitVal b with
      | some d => pyDigitsGo rest (acc * 10 + d) false
      | none => none

/-- Parse a nonempty digit group that must start with a digit. -/
def pyDigitsStr : List Nat → Option Nat
  | [] => none
  | b :: rest =>
    match digitVal b with
    | some d => pyDigitsGo rest d false
    | none => none

/-- Python's `int()` applied to a byte string: optional surrounding ASCII
whitespace, optional single sign, then an underscore-separated digit
group.  Returns `none` where `int()` raises `ValueError`. -/
def pyIntOfBytes (l : List Nat) : Option Int :=
  match pyStrip l with
  | [] => none
  | b :: rest =>
    if b = 43 then (pyDigitsStr rest).map fun v => (v : Int)
    else if b = 45 then (pyDigitsStr rest).map fun v => -(v : Int)
    else (pyDigitsStr (b :: rest)).map fun v => (v : Int)

/-- Fuel-driven accumulator for the ASCII decimal representation of a
natural number (the bytes of Python's `str(n)` / `f-string` formatting of
a nonnegative length). -/
def natDigitsAux : Nat → Nat → List Nat → List Nat
  | 0, _, acc => acc
  | fuel + 1, n, acc =>
    if n < 10 then (48 + n) :: acc
    else natDigitsAux fuel (n / 10) ((48 + n % 10) :: acc)

/-- The ASCII bytes of the decimal representation of `n`, i.e. of
Python's `str(n)` for `n ≥ 0`. -/
def natDigits (n : Nat) : List Nat :=
  natDigitsAux (n + 1) n []

/-- The value of a list of ASCII digit bytes read in base 10. -/
def valOfDigits (l : List Nat) : Nat :=
  l.foldl (fun a b => a * 10 + (b - 48)) 0

/-- `bytes.split(sep, 1)` restricted to the successful two-part case:
`some (before, after)` splits at the first occurrence of `sep`, and
`none` means `sep` is absent (so unpacking `a, b = s.split(sep, 1)`
raises `ValueError` in the source). -/
def splitOnce (sep : Nat) : List Nat → Option (List Nat × List Nat)
  | [] => none
  | b :: rest =>
    if b = sep then some ([], rest)
    else
      match splitOnce sep rest with
      | some (l, r) => some (b :: l, r)
      | none => none

/-- `bytes.split(b' ')` / `str.split(' ')` with no maxsplit: split on
every single space byte (`b''` gives `[b'']`, `b' '` gives
`[b'', b'']`). -/
def splitSp : List Nat → List (List Nat)
  | [] => [[]]
  | b :: rest =>
    if b = 32 then [] :: splitSp rest
    else
      match splitSp rest with
      | [] => [[b]]
      | h :: t => (b :: h) :: t

/-- Rejoin what `splitSp` produced, reinserting one space between
parts. -/
def joinSp : List (List Nat) → List Nat
  | [] => []
  | [x] => x
  | x :: xs => x ++ 32 :: joinSp xs

/-- Resolve a (possibly negative) Python slice index against a sequence of
length `n`: negative indices count from the end, and the result is clamped
into `[0, n]`. -/
def pyClamp (n : Nat) (i : Int) : Nat :=
  (min (n : Int) (if i < 0 then max 0 ((n : Int) + i) else i)).toNat

/-- Python slicing `l[a:b]` with integer endpoints (the source slices
`data[length:length+1]`, `data[:length]`, `data[length+1:]` where
`length` came from `int()` and may be negative). -/
def pySlice (l : List Nat) (a b : Int) : List Nat :=
  (l.take (pyClamp l.length b)).drop (pyClamp l.length a)

/-- The distinct failure branches of the netstring decoder inlined in
`receive_message_queue.inner` (lines 86-99): no colon in the buffer
(the one-element unpack raises `ValueError`); length field starting with
`b'0'` or `b'+'`; `int()` failing on the length field; and the combined
truncation / missing-comma check of line 98. -/
inductive DecodeErr where
  | noColon
  | badLeading
  | badInt
  | noComma
deriving DecidableEq

instance {ε α : Type} [DecidableEq ε] [DecidableEq α] :
    DecidableEq (Except ε α) := fun x y =>
  match x, y with
  | .error a, .error b =>
    if h : a = b then isTrue (congrArg Except.error h)
    else isFalse fun hc => h (Except.error.inj hc)
  | .ok a, .ok b =>
    if h : a = b then isTrue (congrArg Except.ok h)
    else isFalse fun hc => h (Except.ok.inj hc)
  | .error _, .ok _ => isFalse fun hc => Except.noConfusion hc
  | .ok _, .error _ => isFalse fun hc => Except.noConfusion hc

/-- The netstring decode of `receive_message_queue.inner` (lines 86-102):
split the buffer at the first colon, reject length fields starting with
`b'0'` or `b'+'`, convert the length with Python's `int()`, check that a
comma sits `length` bytes into the rest, and return the `length`-byte
payload together with the bytes after the consumed comma. -/
def decodeNetstring (buf : List Nat) :
    Except DecodeErr (List Nat × List Nat) :=
  match splitOnce 58 buf with
  | none => .error .noColon
  | some (lenField, data) =>
    if lenField.head? = some 48 ∨ lenField.head? = some 43 then
      .error .badLeading
    else
      match pyIntOfBytes lenField with
      | none => .error .badInt
      | some k =>
        if (data.length : Int) < k + 1 ∨ pySlice data k (k + 1) ≠ [44] then
          .error .noComma
        else
          .ok (pySlice data 0 k,
            if (data.length : Int) > k + 1 then
              pySlice data (k + 1) (data.length : Int)
            else [])

/-- Byte-level image of `string_to_netstring` (lines 25-27): the source
formats `f'{length}:{string},'` where `length` is the UTF-8 byte length
of the string; on the wire this is exactly the decimal digits of the
payload's byte length, a colon, the payload bytes, and a comma. -/
def string_to_netstring (m : List Nat) : List Nat :=
  natDigits m.length ++ [58] ++ m ++ [44]

/-- Strict UTF-8 continuation automaton: `ps` lists the admissible ranges
of the pending continuation bytes of the current multi-byte sequence. -/
def utf8Aux : List Nat → List (Nat × Nat) → Bool
  | l, (lo, hi) :: ps =>
    match l with
    | [] => false
    | b :: rest => decide (lo ≤ b ∧ b ≤ hi) && utf8Aux rest ps
  | [], [] => true
  | b :: rest, [] =>
    if b ≤ 127 then utf8Aux rest []
    else if b ≤ 193 then false
    else if b ≤ 223 then utf8Aux rest [(128, 191)]
    else if b = 224 then utf8Aux rest [(160, 191), (128, 191)]
    else if b ≤ 236 then utf8Aux rest [(128, 191), (128, 191)]
    else if b = 237 then utf8Aux rest [(128, 159), (128, 191)]
    else if b ≤ 239 then utf8Aux rest [(128, 191), (128, 191)]
    else if b = 240 then utf8Aux rest [(144, 191), (128, 191), (128, 191)]
    else if b ≤ 243 then utf8Aux rest [(128, 191), (128, 191), (128, 191)]
    else if b = 244 then utf8Aux rest [(128, 143), (128, 191), (128, 191)]
    else false

/-- Whether a byte string is valid (strict) UTF-8, i.e. whether Python's
`bytes.decode()` succeeds on it rather than raising
`UnicodeDecodeError`. -/
def utf8Valid (l : List Nat) : Bool :=
  utf8Aux l []

/-- What one call to `receive_message_queue.inner` does, as observed by
the caller: return the decoded payload; exit after the inline
`no netstring received` error of lines 80-85 (`sys.exit(1)`); exit via
`send_error` on a decode failure (`sys.exit()`); exit via `send_error`
on an inbound `E` tag, carrying the UTF-8 decode of the field after the
tag (lines 111-112); or raise an exception that no handler catches
(`IndexError` from `message.split(b' ')[1]` when the tag `E` has no
following field, `UnicodeDecodeError` when that field is not UTF-8). -/
inductive RecvOutcome where
  | msg (m : List Nat)
  | errExitNoData
  | errExitFrame (e : DecodeErr)
  | errExitRemote (text : List Nat)
  | raiseIndexError
  | raiseUnicodeError
deriving DecidableEq

/-- The two residual buffers captured by the `receive_message_queue`
closure: `control_netstrings` (channel 0) and `data_netstrings`
(channel 1). -/
structure QueueState where
  control : List Nat
  data : List Nat
deriving DecidableEq

/-- The tag dispatch of lines 109-113: if the first space-separated field
of the decoded payload is `b'E'`, call `send_error` with the UTF-8 decode
of `message.split(b' ')[1]`; otherwise return the payload.  (The
`message is None` test of line 109 can never fire — `message` is a bytes
slice — and is omitted.) -/
def handle_tag (m : List Nat) : RecvOutcome :=
  match splitSp m with
  | t :: rest =>
    if t = strBytes "E" then
      match rest with
      | [] => .raiseIndexError
      | a :: _ => if utf8Valid a then .errExitRemote a else .raiseUnicodeError
    else .msg m
  | [] => .msg m

/-- One call to `receive_message_queue.inner` (lines 66-113).  The
transport read loop of lines 69-77 concatenates the chunks the socket
delivers until end-of-stream or timeout; `received` is that
concatenation.  The channel's residual is prepended, the combined buffer
is decoded, the remainder is written back into this channel's residual
(lines 101-106), and the tag dispatch runs on the payload. -/
def receive_inner (st : QueueState) (channel : Nat) (received : List Nat) :
    RecvOutcome × QueueState :=
  let netstrings := (if channel = 0 then st.control else st.data) ++ received
  if netstrings = [] then (.errExitNoData, st)
  else
    match decodeNetstring netstrings with
    | .error e => (.errExitFrame e, st)
    | .ok (message, rem) =>
      let st1 := if channel = 0 then { st with control := rem }
                 else { st with data := rem }
      (handle_tag message, st1)

/-- Whether the step-10 reply check of `build_data_channel`
(lines 137-145) accepts `data` against the control token: the payload is
split on every space (`data.split(b' ')` with no maxsplit), the unpack
requires exactly two parts, a part equal to `b'E'` diverts to the error
path, and otherwise the first part must be `b'T'` and the second equal to
the token.  Any `ValueError` (wrong part count or failed comparison)
lands in the bare `except` and fails. -/
def token_reply_accepts (token data : List Nat) : Bool :=
  match splitSp data with
  | [b, t] =>
    if b = strBytes "E" then false
    else decide (b = strBytes "T") && decide (t = token)
  | _ => false

/-- The digit body of the regex `^[1-9]\d*$`: one leading nonzero ASCII
digit followed by ASCII digits.  (The source matches a `str`, where
Python's `\d` also admits non-ASCII decimal digits; the embedding models
the ASCII fragment and theorems about it restrict attention to ASCII
inputs.) -/
def strictNum : List Nat → Bool
  | [] => false
  | h :: t =>
    decide (49 ≤ h ∧ h ≤ 57) && t.all fun b => decide (48 ≤ b ∧ b ≤ 57)

/-- `re.match(r'^[1-9]\d*$', s)` as a predicate: the `$` anchor matches at
the end of the string or just before one trailing newline, so the regex
accepts exactly the strict digit bodies and those bodies followed by one
`'\n'`. -/
def reMatchNum (l : List Nat) : Bool :=
  strictNum l || (decide (l.getLast? = some 10) && strictNum l.dropLast)

/-- `string_to_int` (lines 17-22): gate with the regex, then convert with
`int()`; `None` (here `none`) when the regex does not match. -/
def string_to_int (l : List Nat) : Option Int :=
  if reMatchNum l then pyIntOfBytes l else none

/-- How far the phase-C confirmation of `run` (lines 203-223) gets on one
received control payload: the UTF-8 decode of line 205 fails; the
`S <msglen>` parse of lines 208-216 fails (wrong part count, wrong tag,
or `string_to_int` returning `None`); the length comparison of line 218
fails; or the token-forwarding frame of lines 221-223 is sent. -/
inductive PhaseCStep where
  | errUtf8
  | errParse
  | errLength (got : Int) (expected : Nat)
  | sentToken (frame : List Nat)
deriving DecidableEq

/-- The phase-C confirmation fragment of `run` (lines 203-223): decode the
payload as UTF-8, split it on spaces into exactly `begin` and `msglen`,
require `begin = 'S'`, parse `msglen` with `string_to_int`, compare the
value with the byte length of the original message, and on success send
the frame whose payload is `b'C ' + dtoken` (line 223 builds it as
`str(len(sent_bytes)) + ':' + sent_bytes + ','`, the same bytes as
`string_to_netstring`).  `message` and `dtoken` are byte strings;
`len(message.encode())` is `message.length`. -/
def phase_c_confirm (payload message dtoken : List Nat) : PhaseCStep :=
  if utf8Valid payload = false then .errUtf8
  else
    match splitSp payload with
    | [b, ml] =>
      if b ≠ strBytes "S" then .errParse
      else
        match string_to_int ml with
        | none => .errParse
        | some k =>
          if k ≠ (message.length : Int) then .errLength k message.length
          else .sentToken (string_to_netstring (strBytes "C " ++ dtoken))
    | _ => .errParse

/-- The externally visible operations `send_error` (lines 47-51) performs,
in order. -/
inductive Effect where
  | send (frame : List Nat)
  | print (text : List Nat)
  | close
  | exit (code : Nat)
deriving DecidableEq

/-- The operation sequence of `send_error(error, sock)`: send the framed
`E <error>` netstring, print the diagnostic, close the socket, and call
`sys.exit()` — which, taking no argument, terminates the process with
exit status 0. -/
def send_error_ops (error : List Nat) : List Effect :=
  [.send (string_to_netstring (strBytes "E " ++ error)),
   .print (strBytes "Error: " ++ error),
   .close,
   .exit 0]

/-- Run an operation sequence in which any single operation may raise
(Python has no handler inside `send_error`): execution stops at the first
raising operation, returning the operations that did execute and whether
an exception escaped. -/
def run_until_raise (raises : Effect → Bool) :
    List Effect → List Effect × Bool
  | [] => ([], false)
  | op :: rest =>
    if raises op then ([], true)
    else
      match run_until_raise raises rest with
      | (es, r) => (op :: es, r)

/-- The raising behaviour of a socket whose `sendall` fails (broken
connection): every send raises, nothing else does. -/
def send_op_raises : Effect → Bool
  | .send _ => true
  | _ => false

section Tests
example : strBytes "0:," = [48, 58, 44] := by decide
example : decodeNetstring (strBytes "0:,") = .error .badLeading := by decide
example : decodeNetstring (strBytes "00:,") = .error .badLeading := by decide
example : decodeNetstring (strBytes "+3:abc,") = .error .badLeading := by decide
example : decodeNetstring (strBytes "3abc,") = .error .noColon := by decide
example : decodeNetstring (strBytes "3:ab,") = .error .noComma := by decide
example : decodeNetstring (strBytes "3:abc,2:xy,") =
    .ok (strBytes "abc", strBytes "2:xy,") := by decide
example : decodeNetstring (strBytes " 3 :abc,") =
    .ok (strBytes "abc", []) := by decide
example : decodeNetstring (strBytes "-2:ab,c") =
    .ok (strBytes "ab", strBytes "c") := by decide
example : decodeNetstring (strBytes ":,") = .error .badInt := by decide
example : string_to_netstring (strBytes "abc") = strBytes "3:abc," := by decide
example : string_to_netstring [] = strBytes "0:," := by decide
example : utf8Valid (strBytes "abc") = true := by decide
example : utf8Valid [69, 32, 255] = false := by decide
example : utf8Valid [206, 187] = true := by decide
example : utf8Valid [237, 160, 128] = false := by decide
example : handle_tag (strBytes "E x yz") = .errExitRemote [120] := by decide
example : handle_tag (strBytes "E") = .raiseIndexError := by decide
example : handle_tag (strBytes "S ACK") = .msg (strBytes "S ACK") := by decide
example : handle_tag [69, 32, 255] = .raiseUnicodeError := by decide
example :
    receive_inner ⟨[], []⟩ 0 (strBytes "3:abc,2:xy,") =
      (.msg (strBytes "abc"), ⟨strBytes "2:xy,", []⟩) := by decide
example :
    receive_inner ⟨strBytes "2:xy,", []⟩ 0 [] =
      (.msg (strBytes "xy"), ⟨[], []⟩) := by decide
example : pyIntOfBytes (strBytes " 12 ") = some 12 := by decide
example : pyIntOfBytes (strBytes "1_0") = some 10 := by decide
example : pyIntOfBytes (strBytes "1__0") = none := by decide
example : pyIntOfBytes (strBytes "-5") = some (-5) := by decide
example : pyIntOfBytes (strBytes "") = none := by decide
example : pyIntOfBytes (strBytes "+") = none := by decide
example : natDigits 0 = [48] := by decide
example : natDigits 107 = [49, 48, 55] := by decide
example : splitOnce 58 (strBytes "3:abc,") = some ([51], strBytes "abc,") := by decide
example : splitSp (strBytes "E x yz") = [[69], [120], [121, 122]] := by decide
example : splitSp [] = [[]] := by decide
example : pySlice (strBytes "ab,c") (-2) (-1) = [44] := by decide
example : token_reply_accepts (strBytes "tok123") (strBytes "T tok123") = true := by
  decide
example : token_reply_accepts (strBytes "a b") (strBytes "T a b") = false := by
  decide
example : token_reply_accepts [] (strBytes "T ") = true := by decide
example : string_to_int (strBytes "0") = none := by decide
example : string_to_int (strBytes "05") = none := by decide
example : string_to_int (strBytes "+5") = none := by decide
example : string_to_int (strBytes "12") = some 12 := by decide
example : string_to_int (strBytes "12" ++ [10]) = some 12 := by decide
example : phase_c_confirm (strBytes "S 5") (strBytes "hello") (strBytes "dtokABC") =
    .sentToken (strBytes "9:C dtokABC,") := by decide
example : phase_c_confirm (strBytes "S 4") (strBytes "hello") (strBytes "dtokABC") =
    .errLength 4 5 := by decide
example : phase_c_confirm (strBytes "S 0") [] (strBytes "t") = .errParse := by decide
example : run_until_raise (fun _ => false) (send_error_ops (strBytes "boom")) =
    (send_error_ops (strBytes "boom"), false) := by decide
example : run_until_raise send_op_raises (send_error_ops (strBytes "boom")) =
    ([], true) := by decide
end Tests

/-! ### Supporting lemmas -/

theorem splitOnce_append (sep : Nat) (pre suf : List Nat) (h : sep ∉ pre) :
    splitOnce sep (pre ++ sep :: suf) = some (pre, suf) := by
  induction pre with
  | nil => simp [splitOnce]
  | cons b rest ih =>
    have hb : b ≠ sep := fun hb => h (hb ▸ List.mem_cons_self b rest)
    have hrest : sep ∉ rest := fun hm => h (List.mem_cons_of_mem b hm)
    simp only [List.cons_append, splitOnce, if_neg (fun hc => hb hc),
      List.append_eq, ih hrest]

theorem digit_not_ws {b : Nat} (h : 48 ≤ b ∧ b ≤ 57) : isPyWs b = false := by
  simp only [isPyWs, Bool.or_eq_false_iff, decide_eq_false_iff_not]
  omega

theorem dropWhile_eq_self_of_all {p : Nat → Bool} {l : List Nat}
    (h : ∀ b ∈ l, p b = false) : l.dropWhile p = l := by
  cases l with
  | nil => rfl
  | cons b rest =>
    rw [List.dropWhile_cons, h b (List.mem_cons_self b rest)]
    simp

theorem pyStrip_of_digits {l : List Nat} (h : ∀ b ∈ l, 48 ≤ b ∧ b ≤ 57) :
    pyStrip l = l := by
  have hws : ∀ b ∈ l, isPyWs b = false := fun b hb => digit_not_ws (h b hb)
  have hrev : ∀ b ∈ l.reverse, isPyWs b = false := by
    intro b hb
    exact hws b (List.mem_reverse.mp hb)
  unfold pyStrip
  rw [dropWhile_eq_self_of_all hws, dropWhile_eq_self_of_all hrev,
    List.reverse_reverse]

theorem pyDigitsGo_of_digits {t : List Nat} (h : ∀ b ∈ t, 48 ≤ b ∧ b ≤ 57) :
    ∀ acc, pyDigitsGo t acc false =
      some (t.foldl (fun a b => a * 10 + (b - 48)) acc) := by
  induction t with
  | nil => intro acc; rfl
  | cons b rest ih =>
    intro acc
    have hb : 48 ≤ b ∧ b ≤ 57 := h b (List.mem_cons_self b rest)
    have hrest : ∀ x ∈ rest, 48 ≤ x ∧ x ≤ 57 :=
      fun x hx => h x (List.mem_cons_of_mem b hx)
    have hb95 : b ≠ 95 := by omega
    simp only [pyDigitsGo, if_neg hb95, digitVal, if_pos hb,
      ih hrest, List.foldl_cons]

theorem pyDigitsStr_of_digits {d : Nat} {t : List Nat}
    (hd : 48 ≤ d ∧ d ≤ 57) (h : ∀ b ∈ t, 48 ≤ b ∧ b ≤ 57) :
    pyDigitsStr (d :: t) =
      some ((d :: t).foldl (fun a b => a * 10 + (b - 48)) 0) := by
  simp only [pyDigitsStr, digitVal, if_pos hd, pyDigitsGo_of_digits h,
    List.foldl_cons]
  norm_num

theorem pyIntOfBytes_of_digits {d : Nat} {t : List Nat}
    (hd : 49 ≤ d ∧ d ≤ 57) (h : ∀ b ∈ t, 48 ≤ b ∧ b ≤ 57) :
    pyIntOfBytes (d :: t) =
      some (((d :: t).foldl (fun a b => a * 10 + (b - 48)) 0 : Nat) : Int) := by
  have hd' : 48 ≤ d ∧ d ≤ 57 := ⟨by omega, hd.2⟩
  have hall : ∀ b ∈ d :: t, 48 ≤ b ∧ b ≤ 57 := by
    intro b hb
    rcases List.mem_cons.mp hb with rfl | hb
    · exact hd'
    · exact h b hb
  have h43 : d ≠ 43 := by omega
  have h45 : d ≠ 45 := by omega
  simp only [pyIntOfBytes, pyStrip_of_digits hall, if_neg h43, if_neg h45,
    pyDigitsStr_of_digits hd' h, Option.map_some']
  rfl

theorem natDigitsAux_spec :
    ∀ n fuel acc, n < fuel →
      ∃ ds, natDigitsAux fuel n acc = ds ++ acc ∧
        ds ≠ [] ∧
        (∀ b ∈ ds, 48 ≤ b ∧ b ≤ 57) ∧
        (1 ≤ n → ∃ d t, ds = d :: t ∧ 49 ≤ d ∧ d ≤ 57) ∧
        ∀ a, ds.foldl (fun x b => x * 10 + (b - 48)) a =
          a * 10 ^ ds.length + n := by
  intro n
  induction n using Nat.strong_induction_on with
  | _ n ih =>
    intro fuel acc hfuel
    match fuel with
    | 0 => omega
    | f + 1 =>
      by_cases hn : n < 10
      · refine ⟨[48 + n], ?_, by simp, ?_, ?_, ?_⟩
        · simp [natDigitsAux, if_pos hn]
        · intro b hb
          have : b = 48 + n := List.mem_singleton.mp hb
          omega
        · intro h1
          exact ⟨48 + n, [], rfl, by omega, by omega⟩
        · intro a
          simp only [List.foldl_cons, List.foldl_nil, List.length_singleton,
            pow_one]
          omega
      · have hdiv : n / 10 < n := Nat.div_lt_self (by omega) (by omega)
        have hdivf : n / 10 < f := by omega
        obtain ⟨ds', heq, hne, hdig, hhead, hval⟩ :=
          ih (n / 10) hdiv f ((48 + n % 10) :: acc) hdivf
        refine ⟨ds' ++ [48 + n % 10], ?_, by simp [hne], ?_, ?_, ?_⟩
        · simp only [natDigitsAux, if_neg hn, heq, List.append_assoc,
            List.singleton_append]
        · intro b hb
          rcases List.mem_append.mp hb with hb | hb
          · exact hdig b hb
          · have : b = 48 + n % 10 := List.mem_singleton.mp hb
            have : n % 10 < 10 := Nat.mod_lt n (by omega)
            omega
        · intro _
          have h1 : 1 ≤ n / 10 := by omega
          obtain ⟨d, t, hdt, hd1, hd2⟩ := hhead h1
          exact ⟨d, t ++ [48 + n % 10], by rw [hdt]; simp, hd1, hd2⟩
        · intro a
          have hmod : n / 10 * 10 + n % 10 = n := by omega
          rw [List.foldl_append, hval a, List.length_append,
            List.length_singleton, List.foldl_cons, List.foldl_nil,
            pow_succ]
          have h48 : 48 + n % 10 - 48 = n % 10 := by omega
          rw [h48]
          calc (a * 10 ^ ds'.length + n / 10) * 10 + n % 10
              = a * (10 ^ ds'.length * 10) + (n / 10 * 10 + n % 10) := by ring
            _ = a * (10 ^ ds'.length * 10) + n := by rw [hmod]

theorem natDigits_spec (n : Nat) :
    ∃ d t, natDigits n = d :: t ∧
      (∀ b ∈ d :: t, 48 ≤ b ∧ b ≤ 57) ∧
      (1 ≤ n → 49 ≤ d) ∧
      ∀ a, (d :: t).foldl (fun x b => x * 10 + (b - 48)) a =
        a * 10 ^ (d :: t).length + n := by
  obtain ⟨ds, heq, hne, hdig, hhead, hval⟩ :=
    natDigitsAux_spec n (n + 1) [] (by omega)
  match ds, hne with
  | d :: t, _ =>
    refine ⟨d, t, ?_, ?_, ?_, ?_⟩
    · simpa [natDigits] using heq
    · exact hdig
    · intro h1
      obtain ⟨d2, t2, hdt, hd1, _⟩ := hhead h1
      cases hdt
      exact hd1
    · exact hval

theorem pyInt_natDigits {n : Nat} (h : 1 ≤ n) :
    pyIntOfBytes (natDigits n) = some (n : Int) := by
  obtain ⟨d, t, heq, hdig, hhead, hval⟩ := natDigits_spec n
  have hd : 49 ≤ d ∧ d ≤ 57 :=
    ⟨hhead h, (hdig d (List.mem_cons_self d t)).2⟩
  have ht : ∀ b ∈ t, 48 ≤ b ∧ b ≤ 57 :=
    fun b hb => hdig b (List.mem_cons_of_mem d hb)
  rw [heq, pyIntOfBytes_of_digits hd ht]
  have := hval 0
  simp only [zero_mul, zero_add] at this
  rw [this]

theorem natDigits_all_digits (n : Nat) :
    ∀ b ∈ natDigits n, 48 ≤ b ∧ b ≤ 57 := by
  obtain ⟨d, t, heq, hdig, _, _⟩ := natDigits_spec n
  rw [heq]
  exact hdig

theorem pyClamp_coe (n i : Nat) : pyClamp n (i : Int) = min n i := by
  have hneg : ¬((i : Int) < 0) := by omega
  simp only [pyClamp, if_neg hneg]
  omega

theorem splitSp_ne_nil : ∀ l : List Nat, splitSp l ≠ []
  | [] => by simp [splitSp]
  | b :: rest => by
    by_cases hb : b = 32
    · simp [splitSp, hb]
    · cases hrest : splitSp rest with
      | nil => exact absurd hrest (splitSp_ne_nil rest)
      | cons h t => simp [splitSp, hb, hrest]

theorem splitSp_no_space : ∀ l : List Nat, ∀ p ∈ splitSp l, 32 ∉ p := by
  intro l
  induction l with
  | nil =>
    intro p hp
    simp only [splitSp, List.mem_singleton] at hp
    simp [hp]
  | cons b rest ih =>
    intro p hp
    by_cases hb : b = 32
    · simp only [splitSp, if_pos hb, List.mem_cons] at hp
      rcases hp with rfl | hp
      · simp
      · exact ih p hp
    · cases hrest : splitSp rest with
      | nil => exact absurd hrest (splitSp_ne_nil rest)
      | cons h t =>
        simp only [splitSp, if_neg hb, hrest, List.mem_cons] at hp
        rcases hp with rfl | hp
        · intro hmem
          rcases List.mem_cons.mp hmem with hc | hc
          · exact hb hc.symm
          · exact ih h (hrest ▸ List.mem_cons_self h t) hc
        · exact ih p (hrest ▸ List.mem_cons_of_mem h hp)

theorem splitSp_eq_single_iff : ∀ l : List Nat, splitSp l = [l] ↔ 32 ∉ l := by
  intro l
  induction l with
  | nil => simp [splitSp]
  | cons b rest ih =>
    by_cases hb : b = 32
    · subst hb
      constructor
      · intro hc
        simp only [splitSp, if_pos rfl] at hc
        have := List.cons.inj hc
        exact absurd this.1.symm (List.cons_ne_nil 32 rest)
      · intro hc
        exact absurd (List.mem_cons_self 32 rest) hc
    · cases hrest : splitSp rest with
      | nil => exact absurd hrest (splitSp_ne_nil rest)
      | cons h t =>
        simp only [splitSp, if_neg hb, hrest]
        constructor
        · intro hc
          obtain ⟨hc1, hc2⟩ := List.cons.inj hc
          have hh : h = rest := (List.cons.inj hc1).2
          have : splitSp rest = [rest] := by rw [hrest, hh, hc2]
          have hnr : 32 ∉ rest := (ih).mp this
          intro hmem
          rcases List.mem_cons.mp hmem with hc | hc
          · exact hb hc.symm
          · exact hnr hc
        · intro hmem
          have hnr : 32 ∉ rest := fun hc => hmem (List.mem_cons_of_mem b hc)
          have : splitSp rest = [rest] := (ih).mpr hnr
          rw [hrest] at this
          obtain ⟨h1, h2⟩ := List.cons.inj this
          rw [h1, h2]

theorem joinSp_splitSp : ∀ l : List Nat, joinSp (splitSp l) = l := by
  intro l
  induction l with
  | nil => rfl
  | cons b rest ih =>
    by_cases hb : b = 32
    · subst hb
      cases hrest : splitSp rest with
      | nil => exact absurd hrest (splitSp_ne_nil rest)
      | cons h t =>
        have : joinSp (splitSp (32 :: rest)) = 32 :: joinSp (h :: t) := by
          simp [splitSp, hrest, joinSp]
        rw [this, ← hrest, ih]
    · cases hrest : splitSp rest with
      | nil => exact absurd hrest (splitSp_ne_nil rest)
      | cons h t =>
        cases t with
        | nil =>
          have hj : joinSp (splitSp (b :: rest)) = b :: h := by
            simp [splitSp, hrest, joinSp, hb]
          rw [hj]
          have : joinSp (splitSp rest) = rest := ih
          rw [hrest] at this
          simp only [joinSp] at this
          rw [this]
        | cons h2 t2 =>
          have hj : joinSp (splitSp (b :: rest)) =
              b :: (h ++ 32 :: joinSp (h2 :: t2)) := by
            simp [splitSp, hrest, joinSp, hb]
          rw [hj]
          have : joinSp (splitSp rest) = rest := ih
          rw [hrest] at this
          simp only [joinSp] at this
          rw [this]

theorem strictNum_elim {l : List Nat} (h : strictNum l = true) :
    ∃ d t, l = d :: t ∧ (49 ≤ d ∧ d ≤ 57) ∧ ∀ b ∈ t, 48 ≤ b ∧ b ≤ 57 := by
  cases l with
  | nil => simp [strictNum] at h
  | cons d t =>
    simp only [strictNum, Bool.and_eq_true, decide_eq_true_eq,
      List.all_eq_true] at h
    exact ⟨d, t, rfl, h.1, fun b hb => h.2 b hb⟩

theorem strictNum_all_digits {l : List Nat} (h : strictNum l = true) :
    ∀ b ∈ l, 48 ≤ b ∧ b ≤ 57 := by
  obtain ⟨d, t, rfl, hd, ht⟩ := strictNum_elim h
  intro b hb
  rcases List.mem_cons.mp hb with rfl | hb
  · omega
  · exact ht b hb

theorem pyInt_of_strip_strict {l core : List Nat} (hstrip : pyStrip l = core)
    (h : strictNum core = true) :
    pyIntOfBytes l = some ((valOfDigits core : Nat) : Int) := by
  obtain ⟨d, t, rfl, hd, ht⟩ := strictNum_elim h
  have h43 : d ≠ 43 := by omega
  have h45 : d ≠ 45 := by omega
  simp only [pyIntOfBytes, hstrip, if_neg h43, if_neg h45,
    pyDigitsStr_of_digits ⟨by omega, hd.2⟩ ht, Option.map_some']
  rfl

theorem pyStrip_strict_newline {core : List Nat} (h : strictNum core = true) :
    pyStrip (core ++ [10]) = core := by
  obtain ⟨d, t, rfl, hd, ht⟩ := strictNum_elim h
  have hdw : isPyWs d = false := digit_not_ws ⟨by omega, hd.2⟩
  have hrevdig : ∀ b ∈ (d :: t).reverse, isPyWs b = false := by
    intro b hb
    exact digit_not_ws (strictNum_all_digits h b (List.mem_reverse.mp hb))
  simp only [pyStrip, List.cons_append, List.dropWhile_cons, hdw,
    Bool.false_eq_true, if_false, List.reverse_append, List.reverse_cons,
    List.reverse_nil, List.nil_append, List.singleton_append,
    List.dropWhile_cons]
  have h10 : isPyWs 10 = true := by decide
  rw [h10]
  have hrev2 : ∀ b ∈ t.reverse ++ [d], isPyWs b = false := by
    intro b hb
    rcases List.mem_append.mp hb with hb | hb
    · exact digit_not_ws (ht b (List.mem_reverse.mp hb))
    · rw [List.mem_singleton.mp hb]
      exact hdw
  simp only [if_true, dropWhile_eq_self_of_all hrev2, List.reverse_append,
    List.reverse_cons, List.reverse_nil, List.nil_append,
    List.singleton_append, List.reverse_reverse]

theorem string_to_int_isSome (l : List Nat) :
    (string_to_int l).isSome = reMatchNum l := by
  by_cases hm : reMatchNum l = true
  · rw [hm]
    simp only [string_to_int, if_pos hm]
    simp only [reMatchNum, Bool.or_eq_true, Bool.and_eq_true,
      decide_eq_true_eq] at hm
    rcases hm with hm | ⟨hlast, hdrop⟩
    · have hstrip : pyStrip l = l :=
        pyStrip_of_digits (strictNum_all_digits hm)
      rw [pyInt_of_strip_strict hstrip hm]
      rfl
    · have hne : l ≠ [] := by
        intro hc
        rw [hc] at hlast
        simp at hlast
      have hl : l.dropLast ++ [10] = l := by
        have := List.dropLast_append_getLast hne
        have hg : l.getLast hne = 10 := by
          have h2 := (List.getLast?_eq_getLast l hne) ▸ hlast
          have := Option.some.inj h2
          omega
        rw [hg] at this
        exact this
      have hstrip : pyStrip l = l.dropLast := by
        conv in pyStrip l => rw [← hl]
        exact pyStrip_strict_newline hdrop
      rw [pyInt_of_strip_strict hstrip hdrop]
      rfl
  · have hm' : reMatchNum l = false := by
      cases hmm : reMatchNum l
      · rfl
      · exact absurd hmm hm
    rw [hm']
    simp only [string_to_int, if_neg hm]
    rfl

theorem string_to_int_strict {l : List Nat} (h : strictNum l = true) :
    string_to_int l = some ((valOfDigits l : Nat) : Int) := by
  have hm : reMatchNum l = true := by
    simp [reMatchNum, h]
  simp only [string_to_int, if_pos hm]
  exact pyInt_of_strip_strict (pyStrip_of_digits (strictNum_all_digits h)) h

theorem string_to_int_newline {l : List Nat} (h : strictNum l = true) :
    string_to_int (l ++ [10]) = some ((valOfDigits l : Nat) : Int) := by
  have hlast : (l ++ [10]).getLast? = some 10 := by
    simp [List.getLast?_append]
  have hdrop : (l ++ [10]).dropLast = l := by
    simp [List.dropLast_append_cons]
  have hm : reMatchNum (l ++ [10]) = true := by
    simp [reMatchNum, hlast, hdrop, h]
  simp only [string_to_int, if_pos hm]
  exact pyInt_of_strip_strict (pyStrip_strict_newline h) h

theorem pyClamp_zero (n : Nat) : pyClamp n 0 = 0 := by
  simp only [pyClamp]
  omega

/-! ### Claims -/

/-- C1 (counterexample): the decoder does NOT accept the frame `0:,` —
the check of line 91 rejects every length field starting with `b'0'`,
with no exception for the single digit `0` — and the `only`-direction of
the malformed-length characterisation also fails: `int()` strips
surrounding whitespace, so the length field `' 3 '`, which contains
non-digits, is accepted and the frame ` 3 :abc,` decodes. -/
theorem c1_counterexample :
    decodeNetstring (strBytes "0:,") = .error .badLeading ∧
    decodeNetstring (strBytes " 3 :abc,") = .ok (strBytes "abc", []) := by
  decide

/-- C1 (amended): `0:,` is rejected like `00:,` and `+3:abc,` by the
leading-character check; `3abc,` fails for the missing colon; `3:ab,`
fails the combined truncation/comma check; and in general a length field
is rejected by the leading-character check exactly when it begins with
`0` (even alone) or `+`, and by the conversion check exactly when,
not beginning with `0` or `+`, Python's `int()` fails on it (so fields
with surrounding ASCII whitespace, a minus sign, or digit-separating
underscores are accepted, not only all-digit fields). -/
theorem c1_decode_rejects_amended :
    decodeNetstring (strBytes "0:,") = .error .badLeading ∧
    decodeNetstring (strBytes "00:,") = .error .badLeading ∧
    decodeNetstring (strBytes "+3:abc,") = .error .badLeading ∧
    decodeNetstring (strBytes "3abc,") = .error .noColon ∧
    decodeNetstring (strBytes "3:ab,") = .error .noComma ∧
    ∀ f rest, 58 ∉ f →
      (decodeNetstring (f ++ 58 :: rest) = .error .badLeading ↔
        f.head? = some 48 ∨ f.head? = some 43) ∧
      (decodeNetstring (f ++ 58 :: rest) = .error .badInt ↔
        ¬(f.head? = some 48 ∨ f.head? = some 43) ∧ pyIntOfBytes f = none) := by
  refine ⟨by decide, by decide, by decide, by decide, by decide, ?_⟩
  intro f rest hf
  have hsplit : splitOnce 58 (f ++ 58 :: rest) = some (f, rest) :=
    splitOnce_append 58 f rest hf
  by_cases hc : f.head? = some 48 ∨ f.head? = some 43
  · constructor
    · simp [decodeNetstring, hsplit, hc]
    · simp [decodeNetstring, hsplit, hc]
  · cases hpi : pyIntOfBytes f with
    | none =>
      constructor
      · simp [decodeNetstring, hsplit, hc, hpi]
      · simp [decodeNetstring, hsplit, hc, hpi]
    | some k =>
      constructor
      · simp only [decodeNetstring, hsplit, if_neg hc, hpi]
        constructor
        · intro hcase
          split_ifs at hcase
          simp_all
        · intro hcase
          exact absurd hcase hc
      · simp only [decodeNetstring, hsplit, if_neg hc, hpi]
        constructor
        · intro hcase
          split_ifs at hcase
          simp_all
        · intro hcase
          simp [hpi] at hcase

/-- C1 (witness): the amended characterisation applied to the concrete
length field `+3`. -/
theorem c1_witness :
    (58 ∉ strBytes "+3") ∧
    (decodeNetstring (strBytes "+3" ++ 58 :: strBytes "abc,") =
        .error .badLeading ↔
      (strBytes "+3").head? = some 48 ∨ (strBytes "+3").head? = some 43) :=
  ⟨by decide,
    (c1_decode_rejects_amended.2.2.2.2.2 (strBytes "+3") (strBytes "abc,")
      (by decide)).1⟩

/-- C2 (counterexample): the round-trip fails for the empty message —
`encode` of the empty byte string is `0:,`, which the decoder rejects
because its length field starts with `0`. -/
theorem c2_counterexample :
    string_to_netstring [] = strBytes "0:," ∧
    decodeNetstring (string_to_netstring []) = .error .badLeading := by
  decide

/-- C2 (amended): for every NONEMPTY byte sequence `m`, decoding the
frame produced by encoding `m` yields exactly `m` with an empty
remainder. -/
theorem c2_roundtrip_amended :
    ∀ m : List Nat, m ≠ [] →
      decodeNetstring (string_to_netstring m) = .ok (m, []) := by
  intro m hm
  have hn1 : 1 ≤ m.length := List.length_pos.mpr hm
  obtain ⟨d, t, heq, hdig, hhead, hval⟩ := natDigits_spec m.length
  have h58 : 58 ∉ natDigits m.length := by
    intro hmem
    have := natDigits_all_digits m.length _ hmem
    omega
  have hform : string_to_netstring m =
      natDigits m.length ++ 58 :: (m ++ [44]) := by
    simp [string_to_netstring, List.append_assoc]
  have hsplit : splitOnce 58 (natDigits m.length ++ 58 :: (m ++ [44])) =
      some (natDigits m.length, m ++ [44]) :=
    splitOnce_append 58 _ _ h58
  have hhd : ¬((natDigits m.length).head? = some 48 ∨
      (natDigits m.length).head? = some 43) := by
    rw [heq]
    simp only [List.head?_cons]
    have h49 := hhead hn1
    intro hcase
    rcases hcase with hcase | hcase
    · have h2 := Option.some.inj hcase
      omega
    · have h2 := Option.some.inj hcase
      omega
  have hpi := pyInt_natDigits hn1
  have hlen : (m ++ [44]).length = m.length + 1 := by simp
  have hcast : ((m.length : Int) + 1) = ((m.length + 1 : Nat) : Int) := by
    push_cast
    ring
  have hslice1 : pySlice (m ++ [44]) (m.length : Int) ((m.length : Int) + 1) =
      [44] := by
    simp only [pySlice, hlen, hcast, pyClamp_coe, min_self,
      Nat.min_eq_right (Nat.le_succ m.length)]
    rw [List.take_of_length_le (le_of_eq hlen), List.drop_left]
  have hmsg : pySlice (m ++ [44]) 0 (m.length : Int) = m := by
    simp only [pySlice, hlen, pyClamp_coe, pyClamp_zero,
      Nat.min_eq_right (Nat.le_succ m.length), List.drop_zero]
    exact List.take_left m [44]
  have hgt : ¬(((m ++ [44]).length : Int) > (m.length : Int) + 1) := by
    rw [hlen]
    push_cast
    omega
  rw [hform]
  simp only [decodeNetstring, hsplit, if_neg hhd, hpi]
  rw [if_neg (by
    push_neg
    refine ⟨?_, hslice1⟩
    rw [hlen]
    push_cast
    omega)]
  rw [if_neg hgt, hmsg]

/-- C2 (witness): the amended round-trip applied at the concrete message
`abc`. -/
theorem c2_witness :
    strBytes "abc" ≠ [] ∧
    decodeNetstring (string_to_netstring (strBytes "abc")) =
      .ok (strBytes "abc", []) :=
  ⟨by decide, c2_roundtrip_amended (strBytes "abc") (by decide)⟩

/-- C3 (counterexample): for the control token `a b` — which contains a
space, something the spec explicitly allows in tokens — the reply
consisting of tag `T`, one space and that token byte-for-byte is
REJECTED, because line 139 splits the reply on every space and the
three-part result fails the two-variable unpack. -/
theorem c3_counterexample :
    strBytes "T a b" = strBytes "T " ++ strBytes "a b" ∧
    token_reply_accepts (strBytes "a b") (strBytes "T a b") = false := by
  decide

/-- C3 (amended): the step-10 reply check accepts a reply exactly when
the reply is tag `T`, one space, and the control token byte-for-byte AND
the token contains no space byte; consequently for a token containing a
space no reply at all is accepted. -/
theorem c3_token_check_amended :
    ∀ token data : List Nat,
      token_reply_accepts token data = true ↔
        data = strBytes "T " ++ token ∧ 32 ∉ token := by
  intro token data
  constructor
  · intro h
    cases hs : splitSp data with
    | nil => exact absurd hs (splitSp_ne_nil data)
    | cons p1 ps =>
      cases ps with
      | nil => simp [token_reply_accepts, hs] at h
      | cons p2 ps2 =>
        cases ps2 with
        | cons p3 ps3 => simp [token_reply_accepts, hs] at h
        | nil =>
          simp only [token_reply_accepts, hs] at h
          split_ifs at h with hE
          simp only [Bool.and_eq_true, decide_eq_true_eq] at h
          obtain ⟨hT, htok⟩ := h
          constructor
          · have hdata := (joinSp_splitSp data).symm
            rw [hs, hT, htok] at hdata
            rw [hdata]
            rfl
          · rw [← htok]
            exact splitSp_no_space data p2
              (hs ▸ List.mem_cons_of_mem p1 (List.mem_cons_self p2 []))
  · rintro ⟨rfl, hns⟩
    have htok : splitSp token = [token] :=
      (splitSp_eq_single_iff token).mpr hns
    have hTsp : strBytes "T " ++ token = 84 :: 32 :: token := rfl
    have hsp : splitSp (strBytes "T " ++ token) = [[84], token] := by
      rw [hTsp]
      simp [splitSp, htok]
    have hE : ¬(([84] : List Nat) = strBytes "E") := by decide
    have hT : (([84] : List Nat) = strBytes "T") := by decide
    have hTE : ¬((strBytes "T" : List Nat) = strBytes "E") := by decide
    simp [token_reply_accepts, hsp, hE, hT, hTE]

/-- C4 (counterexample): an inbound frame whose payload is `E x yz` makes
the receiver exit carrying only `x` — the first space-separated field
after the tag (line 112 forwards `message.split(b' ')[1]`) — not the
entire remainder `x yz` as the claim states. -/
theorem c4_counterexample :
    receive_inner ⟨[], []⟩ 0 (strBytes "6:E x yz,") =
      (.errExitRemote (strBytes "x"), ⟨[], []⟩) ∧
    strBytes "x" ≠ strBytes "x yz" := by
  decide

/-- C4 (amended): whenever a decoded inbound message's first
space-separated field is `E`, the receiver fails with a remote-abort
error carrying exactly the SECOND space-separated field (the first field
after the tag, which must moreover decode as UTF-8), not the entire
remainder after the tag. -/
theorem c4_remote_abort_amended :
    ∀ (m a : List Nat) (rest : List (List Nat)),
      splitSp m = strBytes "E" :: a :: rest →
      utf8Valid a = true →
      handle_tag m = .errExitRemote a := by
  intro m a rest hs hu
  simp [handle_tag, hs, hu]

/-- C4 (witness): the amended statement applied to the concrete message
`E x yz`. -/
theorem c4_witness :
    splitSp (strBytes "E x yz") =
      strBytes "E" :: strBytes "x" :: [strBytes "yz"] ∧
    handle_tag (strBytes "E x yz") = .errExitRemote (strBytes "x") :=
  ⟨by decide,
    c4_remote_abort_amended (strBytes "E x yz") (strBytes "x")
      [strBytes "yz"] (by decide) (by decide)⟩

/-- C5 (counterexample): the shared integer grammar `^[1-9]\d*$` does NOT
admit the single digit `0`, so for an empty message the phase-C reply
`S 0` is rejected at the parsing step instead of passing both checks. -/
theorem c5_counterexample :
    string_to_int (strBytes "0") = none ∧
    phase_c_confirm (strBytes "S 0") [] (strBytes "dtok") = .errParse := by
  decide

/-- C5 (amended): the `msglen` field (restricted to ASCII bytes, where
the embedding of the regex is exact) is accepted exactly when it is one
nonzero digit followed by digits, optionally with one trailing newline
(an artifact of `$` in `re.match`); accepted fields evaluate to their
decimal value; the single digit `0` is NOT accepted, so the reply `S 0`
for an empty message fails with a parse error rather than passing. -/
theorem c5_msglen_grammar_amended :
    (∀ l : List Nat, (string_to_int l).isSome = reMatchNum l) ∧
    (∀ l : List Nat, strictNum l = true →
      string_to_int l = some ((valOfDigits l : Nat) : Int)) ∧
    (∀ l : List Nat, strictNum l = true →
      string_to_int (l ++ [10]) = some ((valOfDigits l : Nat) : Int)) ∧
    string_to_int (strBytes "0") = none ∧
    phase_c_confirm (strBytes "S 0") [] (strBytes "dtok") = .errParse :=
  ⟨string_to_int_isSome,
   fun _ h => string_to_int_strict h,
   fun _ h => string_to_int_newline h,
   by decide, by decide⟩

/-- C5 (witness): the amended grammar facts applied at the concrete
field `12`. -/
theorem c5_witness :
    strictNum (strBytes "12") = true ∧
    string_to_int (strBytes "12") =
      some ((valOfDigits (strBytes "12") : Nat) : Int) :=
  ⟨by decide, c5_msglen_grammar_amended.2.1 (strBytes "12") (by decide)⟩

/-- C6 (confirmed): if the phase-C reply parses as `S <msglen>` but the
reported length differs from the byte length of the original message,
the client fails with the length-mismatch error and the token-forwarding
frame (payload `C ` followed by the data token) is never sent. -/
theorem c6_length_mismatch :
    ∀ payload message dtoken ml : List Nat, ∀ k : Int,
      utf8Valid payload = true →
      splitSp payload = [strBytes "S", ml] →
      string_to_int ml = some k →
      k ≠ (message.length : Int) →
      phase_c_confirm payload message dtoken =
        .errLength k message.length ∧
      ∀ frame, phase_c_confirm payload message dtoken ≠
        .sentToken frame := by
  intro payload message dtoken ml k hu hs hint hk
  have hmain : phase_c_confirm payload message dtoken =
      .errLength k message.length := by
    simp [phase_c_confirm, hu, hs, hint, hk]
  exact ⟨hmain, fun frame => by rw [hmain]; simp⟩

/-- C6 (witness): the mismatch behaviour at the spec's own scenario —
reply `S 4` for the 5-byte message `hello`. -/
theorem c6_witness :
    utf8Valid (strBytes "S 4") = true ∧
    phase_c_confirm (strBytes "S 4") (strBytes "hello") (strBytes "dtokABC") =
      .errLength 4 5 :=
  ⟨by decide,
    (c6_length_mismatch (strBytes "S 4") (strBytes "hello")
      (strBytes "dtokABC") (strBytes "4") 4 (by decide) (by decide)
      (by decide) (by decide)).1⟩

/-- C7 (confirmed): when one transport read delivers `3:abc,2:xy,` on a
channel, the first receive call returns `abc` and stores the remainder
`2:xy,` in that channel's residual buffer (leaving the other channel's
buffer untouched), and the next call on the same channel — with the
transport delivering no further bytes — returns `xy` from the persisted
residual.  Shown for the control channel (0) and the data channel (1). -/
theorem c7_residual_buffer :
    (receive_inner ⟨[], []⟩ 0 (strBytes "3:abc,2:xy,") =
      (.msg (strBytes "abc"), ⟨strBytes "2:xy,", []⟩) ∧
     receive_inner ⟨strBytes "2:xy,", []⟩ 0 [] =
      (.msg (strBytes "xy"), ⟨[], []⟩)) ∧
    (receive_inner ⟨[], []⟩ 1 (strBytes "3:abc,2:xy,") =
      (.msg (strBytes "abc"), ⟨[], strBytes "2:xy,"⟩) ∧
     receive_inner ⟨[], strBytes "2:xy,"⟩ 1 [] =
      (.msg (strBytes "xy"), ⟨[], []⟩)) := by
  decide

/-- C8 (code bug): when the notification send succeeds, `send_error`
sends the framed `E <reason>`, prints the diagnostic, closes the socket
— and then terminates via `sys.exit()` with NO argument, i.e. with
process exit status 0, not a non-zero failure status as the claim
requires (the inline no-data path of line 85 does use `sys.exit(1)`,
which is the evident intent). -/
theorem c8_send_error_exit_status :
    ∀ e : List Nat,
      run_until_raise (fun _ => false) (send_error_ops e) =
        ([.send (string_to_netstring (strBytes "E " ++ e)),
          .print (strBytes "Error: " ++ e),
          .close,
          .exit 0], false) := by
  intro e
  rfl

/-- C9 (counterexample): when the notification send itself raises (the
socket is already broken), NONE of the remaining operations of
`send_error` execute — in particular the diagnostic `Error: boom` is
never printed, so the original error IS masked — whereas with a working
socket the diagnostic is printed. -/
theorem c9_counterexample :
    run_until_raise send_op_raises (send_error_ops (strBytes "boom")) =
      ([], true) ∧
    (run_until_raise (fun _ => false)
        (send_error_ops (strBytes "boom"))).1 =
      [.send (strBytes "6:E boom,"), .print (strBytes "Error: boom"),
       .close, .exit 0] := by
  decide

/-- C9 (amended): the `sendall` of line 48 is the FIRST operation of
`send_error` and is not guarded, so if the notification send raises, the
diagnostic print, the socket close and the orderly exit are all skipped
and the exception propagates: the failure termination still happens
(abnormally), but the original diagnostic is lost — notification failure
masks the original error rather than being transparent to it. -/
theorem c9_notify_failure_amended :
    ∀ e : List Nat,
      run_until_raise send_op_raises (send_error_ops e) = ([], true) := by
  intro e
  rfl

/-- C10 (code bug): a decoded inbound message consisting of exactly the
single byte `E` (frame `1:E,`) makes line 112 evaluate
`message.split(b' ')[1]` on a one-element list, raising an unhandled
`IndexError` instead of returning or taking the notify-and-exit path;
the residual buffer has already been updated when the exception
fires. -/
theorem c10_bare_E_indexerror :
    receive_inner ⟨[], []⟩ 0 (strBytes "1:E,2:hi,") =
      (.raiseIndexError, ⟨strBytes "2:hi,", []⟩) ∧
    handle_tag (strBytes "E") = .raiseIndexError := by
  decide
